import Mathlib

attribute [local semireducible] Rat.add Rat.mul Rat.inv Rat.sub

/-!
Shallow embedding of `src/main.py` (orders-summary pipeline).

Python `Decimal` values are modelled by `OrdersSummary.Dec`: a finite value
is a rational carrying the exact value of the decimal (every decimal
numeric string denotes a rational), and the special values `Infinity`/`NaN`
accepted by the `Decimal` constructor are modelled explicitly, since they
behave differently in comparisons and arithmetic.  The program never
changes the decimal context, so arithmetic uses the default context:
`+` and `*` compute the exact result and round it to 28 significant digits
(`ROUND_HALF_EVEN`), with `Emax = 999999`, `Emin = -999999` (results are
rounded no finer than `Etiny = Emin - 27`), and `Overflow` trapped; this
is modelled by `ctxRound`.  `quantize` raises `InvalidOperation` when the
quantized coefficient would exceed 28 digits; this is modelled in
`decQuantize2`.  Only the numeric value of a `Decimal` is tracked (not its
coefficient/exponent pair): every operation, comparison and conversion
performed by this program depends on the value alone, since the
constructor is exact and the context rounding of a result is a function of
the exact result value.  Quiet and signaling NaN are merged into one
constructor; a NaN never survives validation because the `< 0` comparison
in `load_orders` raises on NaN.

CSV input is modelled after `csv` has split the file into rows: a file is a
`List (List String)` (the header row followed by data rows).  `DictReader`
semantics are reproduced: the value of a column is the cell at the *last*
index of that column name in the header (later duplicates win in
`dict(zip(fieldnames, row))` plus the `restval` fill), a missing cell of a
short row is Python `None` (modelled as `Option.none`), and rows equal to
`[]` (blank lines) are skipped before row numbering.

Raised Python exceptions are modelled with `Option`/`Except`: a function
returns `none`/`.error` exactly when the corresponding Python code raises.
The `float(...)` conversions at the serialization boundary are not applied
(floating point is outside the model); the exact value is carried instead,
with the integer-versus-fractional choice of `find_best_selling_sku`
modelled as an explicit tag.
-/

deriving instance DecidableEq for Except

namespace OrdersSummary

/-- Model of a Python `Decimal` value: an exact finite rational, a signed
infinity (`true` = negative), or NaN. -/
inductive Dec where
  | fin : ℚ → Dec
  | inf : Bool → Dec
  | nan : Dec
deriving DecidableEq, Repr

/-- Test whether a `Dec` is a finite value. -/
def Dec.isFin : Dec → Bool
  | .fin _ => true
  | _ => false

/-- The rational value of a finite `Dec` (junk value `0` on the special
values; only used under finiteness hypotheses). -/
def Dec.val : Dec → ℚ
  | .fin q => q
  | _ => 0

/-- Whitespace characters removed by Python `str.strip()` (ASCII part;
the Unicode space characters it also removes are not modelled). -/
def isSpaceChar (c : Char) : Bool :=
  c = ' ' ∨ c = '\t' ∨ c = '\n' ∨ c = '\r' ∨ c = '\x0b' ∨ c = '\x0c'

/-- Remove leading and trailing whitespace, as Python `str.strip()`. -/
def pyStrip (s : List Char) : List Char :=
  ((s.dropWhile isSpaceChar).reverse.dropWhile isSpaceChar).reverse

/-- Lower-case an ASCII letter, leaving other characters unchanged; used to
model the case-insensitive literal matching of the `decimal` parser. -/
def asciiLower (c : Char) : Char :=
  if 'A' ≤ c ∧ c ≤ 'Z' then Char.ofNat (c.toNat + 32) else c

/-- All characters of the list are ASCII digits. -/
def allDigits (s : List Char) : Bool := s.all Char.isDigit

/-- Numeric value of a list of ASCII digits, most significant first. -/
def digitsToNat (s : List Char) : ℕ :=
  s.foldl (fun a c => 10 * a + (c.toNat - '0'.toNat)) 0

/-- Strip one optional leading sign; `true` means a `-` sign was present. -/
def parseSign : List Char → Bool × List Char
  | '+' :: rest => (false, rest)
  | '-' :: rest => (true, rest)
  | s => (false, s)

/-- Parse the exponent field of a decimal numeric string: an optional sign
followed by at least one digit. -/
def parseExp (s : List Char) : Option ℤ :=
  let (neg, d) := parseSign s
  if d ≠ [] ∧ allDigits d then
    some (if neg then -(digitsToNat d : ℤ) else (digitsToNat d : ℤ))
  else none

/-- Parse the mantissa `digits [. digits]` of a decimal numeric string,
returning the concatenated digit value and the number of fractional
digits.  At least one digit must be present (`"1."`, `".5"`, `"7"` are
valid; `"."` and `""` are not), matching the regular expression used by
Python `decimal`. -/
def parseMantissa (s : List Char) : Option (ℕ × ℕ) :=
  let ip := s.takeWhile (· ≠ '.')
  match s.dropWhile (· ≠ '.') with
  | [] => if ip ≠ [] ∧ allDigits ip then some (digitsToNat ip, 0) else none
  | '.' :: fp =>
    if (ip ≠ [] ∨ fp ≠ []) ∧ allDigits ip ∧ allDigits fp then
      some (digitsToNat (ip ++ fp), fp.length)
    else none
  | _ => none

/-- Exact rational value of a parsed decimal string: sign, concatenated
digit value `n`, number of fractional digits, and exponent; the value is
`± n × 10 ^ (e - fracLen)`. -/
def decToRat (neg : Bool) (n fracLen : ℕ) (e : ℤ) : ℚ :=
  let s : ℤ := if neg then -(n : ℤ) else (n : ℤ)
  let E : ℤ := e - (fracLen : ℤ)
  if 0 ≤ E then ((s * 10 ^ E.toNat : ℤ) : ℚ) else mkRat s (10 ^ (-E).toNat)

/-- Body of a NaN literal: `nan` or `snan`, optionally followed by
diagnostic digits (case already lowered). -/
def isNaNBody : List Char → Bool
  | 'n' :: 'a' :: 'n' :: ds => allDigits ds
  | 's' :: 'n' :: 'a' :: 'n' :: ds => allDigits ds
  | _ => false

/-- Parse a string as Python `Decimal(str)` does: strip surrounding
whitespace, remove underscores, then match (case-insensitively) an
optionally signed infinity, NaN, or decimal numeric literal with an
optional exponent.  Returns `none` when the constructor would raise. -/
def parseDec (s : String) : Option Dec :=
  let cs := ((pyStrip s.toList).map asciiLower).filter (· ≠ '_')
  let (neg, body) := parseSign cs
  if body = ['i', 'n', 'f'] ∨ body = ['i', 'n', 'f', 'i', 'n', 'i', 't', 'y'] then
    some (.inf neg)
  else if isNaNBody body then
    some .nan
  else
    let mant := body.takeWhile (· ≠ 'e')
    match body.dropWhile (· ≠ 'e') with
    | [] => (parseMantissa mant).map (fun p => .fin (decToRat neg p.1 p.2 0))
    | 'e' :: ex => do
      let p ← parseMantissa mant
      let e ← parseExp ex
      pure (.fin (decToRat neg p.1 p.2 e))
    | _ => none

example : parseDec "1" = some (.fin 1) := by decide
example : parseDec " 10.005 " = some (.fin (2001 / 200)) := by decide
example : parseDec "-2.5e1" = some (.fin (-25)) := by decide
example : parseDec "Infinity" = some (.inf false) := by decide
example : parseDec "NaN" = some .nan := by decide
example : parseDec "1.2.3" = none := by decide
example : parseDec "" = none := by decide
example : parseDec "None" = none := by decide
example : parseDec ".5" = some (.fin (1 / 2)) := by decide
example : parseDec "1_0" = some (.fin 10) := by decide

/-- Model of Python `str(value)` on the optional cell values handled by
`to_decimal`: an absent cell is Python `None`, whose string form is
`"None"` (which then fails decimal parsing). -/
def pyStr : Option String → String
  | none => "None"
  | some s => s

/-- Model of `to_decimal` in `src/main.py`: `Decimal(str(value))`, with
`none` when the constructor raises (re-raised there as a `ValueError`). -/
def to_decimal (v : Option String) : Option Dec := parseDec (pyStr v)

/-- Model of the Python comparison `d < 0` on a `Decimal`: ordering
comparisons with NaN raise `InvalidOperation` (`none`); infinities and
finite values compare normally. -/
def decIsNeg : Dec → Option Bool
  | .nan => none
  | .inf b => some b
  | .fin q => some (decide (q < 0))

/-- Python `str.strip()` on an actual string value. -/
def pyStripStr (s : String) : String := ⟨pyStrip s.toList⟩

/-- Model of one validated order record (the dicts appended to `records`
by `load_orders`). -/
structure OrderRecord where
  sku : String
  quantity : Dec
  price : Dec
deriving DecidableEq, Repr

/-- Index of the last occurrence of column `c` in the header, if any.
`csv.DictReader` builds each row dict from `zip(fieldnames, row)` followed
by a `restval` fill of the missing keys, so for duplicated header names
the value associated with a column is the cell at its last index. -/
def lastIdxOf (l : List String) (c : String) : Option ℕ :=
  ((List.range l.length).filter (fun j => l[j]? = some c)).getLast?

/-- The value a `DictReader` row dict gives for column `c`: the cell at
the last header index of `c`, or `None` (`restval`) when the row is too
short.  After the schema check every required column occurs in the
header, so the key is always present. -/
def cell (header row : List String) (c : String) : Option String :=
  match lastIdxOf header c with
  | none => none
  | some j => row[j]?

/-- Model of the body of the row loop of `load_orders` for one row:
`none` when any exception is raised there (`sku` is `None` so `.strip()`
raises `AttributeError`; `to_decimal` raises on an unparseable value;
the `< 0` comparison raises on NaN; a negative value raises the explicit
`ValueError`).  The negativity test short-circuits like the Python `or`. -/
def parseRow (header row : List String) : Option OrderRecord := do
  let skuCell ← cell header row "sku"
  let qty ← to_decimal (cell header row "quantity")
  let price ← to_decimal (cell header row "price")
  let qtyNeg ← decIsNeg qty
  if qtyNeg then none
  else do
    let priceNeg ← decIsNeg price
    if priceNeg then none
    else some ⟨pyStripStr skuCell, qty, price⟩

/-- The two failure modes of `load_orders`: the schema `ValueError`
(carrying the missing columns, already sorted) and the per-row
`ValueError` (carrying the 1-based row number it reports). -/
inductive LoadError where
  | schema : List String → LoadError
  | row : ℕ → LoadError
deriving DecidableEq, Repr

/-- The required columns `{"sku", "quantity", "price"}` in the sorted
order produced by `sorted(missing)`. -/
def requiredSorted : List String := ["price", "quantity", "sku"]

/-- Model of `sorted(required - set(fieldnames))`: filtering the sorted
list of required columns keeps the result alphabetically sorted. -/
def missingCols (header : List String) : List String :=
  requiredSorted.filter (fun c => ¬ header.contains c)

/-- The row loop of `load_orders`: rows are processed in order with a
1-based counter, and the first invalid row aborts the whole load. -/
def loadRows (header : List String) : ℕ → List (List String) → Except LoadError (List OrderRecord)
  | _, [] => .ok []
  | i, row :: rest =>
    match parseRow header row with
    | none => .error (.row i)
    | some r =>
      match loadRows header (i + 1) rest with
      | .error e => .error e
      | .ok rs => .ok (r :: rs)

/-- Model of `load_orders` on the already-split CSV rows.  An empty file
gives `fieldnames = None`, so all three required columns are missing; a
present header is checked for the required columns first; blank rows
(`[]`) are skipped by `DictReader` before `enumerate` numbers the rows. -/
def load_orders (rows : List (List String)) : Except LoadError (List OrderRecord) :=
  match rows with
  | [] => .error (.schema requiredSorted)
  | header :: dataRows =>
    if missingCols header = [] then loadRows header 1 (dataRows.filter (fun r => !r.isEmpty))
    else .error (.schema (missingCols header))

/-- Number of base-10 digits of `n` (`0` when `n = 0`); fuel-based so it
evaluates in the kernel (`n` divisions by 10 are always enough fuel). -/
def digitLenAux : ℕ → ℕ → ℕ
  | 0, _ => 0
  | fuel + 1, n => if n = 0 then 0 else digitLenAux fuel (n / 10) + 1

/-- Number of base-10 digits of `n` (`0` when `n = 0`). -/
def digitLen (n : ℕ) : ℕ := digitLenAux n n

/-- The rational `10 ^ k` for an integer exponent `k`. -/
def pow10 (k : ℤ) : ℚ := (10 : ℚ) ^ k

/-- Decide `10 ^ k ≤ |q|`. -/
def adjCond (q : ℚ) (k : ℤ) : Bool := decide (pow10 k ≤ |q|)

/-- The Decimal "adjusted exponent" of the exact value of a nonzero `q`:
the unique `e` with `10 ^ e ≤ |q| < 10 ^ (e + 1)`, located from the digit
counts of numerator and denominator (for nonzero `q` the digit-count
difference `k` satisfies `10 ^ (k - 1) < |q| < 10 ^ (k + 1)`). -/
def adjustedExp (q : ℚ) : ℤ :=
  let k : ℤ := (digitLen q.num.natAbs : ℤ) - (digitLen q.den : ℤ)
  if adjCond q k then k else k - 1

/-- Round a rational to an integer, ties to the even neighbour
(`ROUND_HALF_EVEN`). -/
def roundHalfEven (x : ℚ) : ℤ :=
  let f := ⌊x⌋
  if x - f < 1 / 2 then f
  else if 1 / 2 < x - f then f + 1
  else if f % 2 = 0 then f else f + 1

/-- Round the exact result of a `Decimal` operation as the default
context does: round half-even at exponent `adjusted - 27` (28
significant digits), but no finer than `Etiny = Emin - 27 = -1000026`;
`Overflow` (trapped by default, hence `none`) when the rounded result's
adjusted exponent exceeds `Emax = 999999`.  When the exact result needs
at most 28 significant digits within the exponent range, the rounding is
the identity. -/
def ctxRound (q : ℚ) : Option ℚ :=
  if q = 0 then some 0
  else
    let rexp : ℤ := max (adjustedExp q - 27) (-1000026)
    let r : ℚ := ((roundHalfEven (q * pow10 (-rexp)) : ℤ) : ℚ) * pow10 rexp
    if r = 0 then some 0
    else if 1000000 ≤ adjustedExp r then none
    else some r

/-- Model of `Decimal` multiplication: `0 × ∞` raises `InvalidOperation`
(`none`), a quiet NaN propagates, infinities keep the sign rule, and a
finite product is the exact product rounded by the default context
(`none` on trapped `Overflow`). -/
def decMul : Dec → Dec → Option Dec
  | .nan, _ => some .nan
  | _, .nan => some .nan
  | .inf b, .inf c => some (.inf (b != c))
  | .inf b, .fin q => if q = 0 then none else some (.inf (b != decide (q < 0)))
  | .fin q, .inf b => if q = 0 then none else some (.inf (b != decide (q < 0)))
  | .fin a, .fin b => (ctxRound (a * b)).map .fin

/-- Model of `Decimal` addition: `∞ + (-∞)` raises `InvalidOperation`
(`none`), a quiet NaN propagates, an infinity absorbs finite values, and
a finite sum is the exact sum rounded by the default context (`none` on
trapped `Overflow`). -/
def decAdd : Dec → Dec → Option Dec
  | .nan, _ => some .nan
  | _, .nan => some .nan
  | .inf b, .inf c => if b = c then some (.inf b) else none
  | .inf b, .fin _ => some (.inf b)
  | .fin _, .inf b => some (.inf b)
  | .fin a, .fin b => (ctxRound (a + b)).map .fin

/-- Round a rational to 2 fractional digits with `ROUND_HALF_UP` (to
nearest, ties away from zero). -/
def roundHalfUp2 (q : ℚ) : ℚ :=
  if 0 ≤ q then (⌊q * 100 + 1 / 2⌋ : ℚ) / 100 else -((⌊-q * 100 + 1 / 2⌋ : ℚ) / 100)

/-- Model of `total.quantize(Decimal("0.01"), rounding=ROUND_HALF_UP)`:
raises `InvalidOperation` on an infinity, propagates a quiet NaN, and
rounds a finite value half-up to 2 fractional digits — raising
`InvalidOperation` (`none`) when the rounded coefficient would exceed
the context's 28 digits, that is when `|result| ≥ 10 ^ 26`. -/
def decQuantize2 : Dec → Option Dec
  | .nan => some .nan
  | .inf _ => none
  | .fin q =>
    let r := roundHalfUp2 q
    if adjCond r 26 then none else some (.fin r)

/-- One `total += r["quantity"] * r["price"]` step of
`calculate_total_revenue`. -/
def revStep (acc : Dec) (r : OrderRecord) : Option Dec := do
  let p ← decMul r.quantity r.price
  decAdd acc p

/-- Model of `calculate_total_revenue`: fold `total += quantity * price`
from `Decimal("0")`, then quantize to 2 fractional digits half-up;
`none` when any step raises. -/
def calculate_total_revenue (records : List OrderRecord) : Option Dec := do
  let total ← records.foldlM revStep (Dec.fin 0)
  decQuantize2 total

/-- One `qty_by_sku[sku] += quantity` step on the insertion-ordered
association list modelling the `defaultdict(Decimal)`: a missing key is
created as `Decimal()` (zero) first, and a new key goes to the end. -/
def bumpQty (m : List (String × Dec)) (sku : String) (q : Dec) : Option (List (String × Dec)) :=
  match m with
  | [] => (decAdd (.fin 0) q).map (fun v => [(sku, v)])
  | (s, v) :: rest =>
    if s = sku then (decAdd v q).map (fun v2 => (s, v2) :: rest)
    else (bumpQty rest sku q).map (fun m2 => (s, v) :: m2)

/-- The grouping loop of `find_best_selling_sku`. -/
def groupQty (records : List OrderRecord) : Option (List (String × Dec)) :=
  records.foldlM (fun m r => bumpQty m r.sku r.quantity) []

/-- Lexicographic code-point comparison of character lists; Python
compares strings exactly this way. -/
def strLt : List Char → List Char → Bool
  | [], [] => false
  | [], _ :: _ => true
  | _ :: _, [] => false
  | c :: cs, d :: ds => if c < d then true else if d < c then false else strLt cs ds

/-- Non-strict string comparison derived from `strLt`. -/
def strLe (a b : List Char) : Bool := !strLt b a

/-- Key comparison used by `sorted(qty_by_sku.items(), key=lambda x: x[0])`. -/
def skuLe (a b : String × Dec) : Bool := strLe a.1.toList b.1.toList

/-- The key comparison as a relation. -/
def skuLE (a b : String × Dec) : Prop := skuLe a b = true

instance : DecidableRel skuLE := fun _ _ => inferInstanceAs (Decidable (_ = true))

/-- Model of `sorted(..., key=lambda x: x[0])`: a stable sort by the SKU
string.  Insertion sort is stable, and Python's sort is stable, so they
agree on every input (here the keys are distinct dict keys anyway). -/
def sortBySku (l : List (String × Dec)) : List (String × Dec) := l.insertionSort skuLE

/-- Model of the Python comparison `x > y` on `Decimal` quantities: NaN
raises `InvalidOperation` (`none`); otherwise `-∞ <` finite values `< ∞`. -/
def decGt : Dec → Dec → Option Bool
  | .nan, _ => none
  | _, .nan => none
  | .inf b, .inf c => some (!b && c)
  | .inf b, .fin _ => some !b
  | .fin _, .inf c => some c
  | .fin a, .fin b => some (decide (b < a))

/-- Model of `max(items, key=lambda x: x[1])` starting from a first
element: later elements replace the current best only when strictly
greater, so the first maximum wins. -/
def pyMaxBy (x : String × Dec) (xs : List (String × Dec)) : Option (String × Dec) :=
  xs.foldlM (fun best y => (decGt y.2 best.2).map (fun g => if g then y else best)) x

/-- Model of `max(items, ...)` including the empty case (`ValueError`,
unreachable here because the dict of a non-empty record list is
non-empty). -/
def pyMaxList : List (String × Dec) → Option (String × Dec)
  | [] => none
  | x :: xs => pyMaxBy x xs

/-- The `total_quantity` value placed in the result: `int(q)` when the
summed quantity equals its integral value, else `float(q)` (the exact
rational is carried; the binary-float approximation is outside the
model).  `float("nan")` from a NaN quantity gets its own tag. -/
inductive QtyOut where
  | int : ℤ → QtyOut
  | frac : ℚ → QtyOut
  | nanF : QtyOut
deriving DecidableEq, Repr

/-- Model of
`int(q) if q == q.to_integral_value() else float(q)`:
an infinity passes the equality test and then `int(∞)` raises
`OverflowError` (`none`); NaN fails the equality test (quietly) and
becomes `float("nan")`; a finite value is an `int` exactly when it is a
whole number. -/
def decToQtyOut : Dec → Option QtyOut
  | .fin q => some (if q.den = 1 then .int q.num else .frac q)
  | .inf _ => none
  | .nan => some .nanF

/-- The dict returned by `find_best_selling_sku`. -/
structure BestOut where
  sku : Option String
  total_quantity : QtyOut
deriving DecidableEq, Repr

/-- Model of `find_best_selling_sku`: group quantities by SKU, return the
empty marker on no records, else take the first maximum of the
alphabetically sorted items. -/
def find_best_selling_sku (records : List OrderRecord) : Option BestOut := do
  let m ← groupQty records
  if m.isEmpty then
    pure ⟨none, QtyOut.int 0⟩
  else do
    let best ← pyMaxList (sortBySku m)
    let qo ← decToQtyOut best.2
    pure ⟨some best.1, qo⟩

/-- The output structure built by `build_output` (the `float(...)`
conversion of the revenue at the JSON boundary is not applied; the exact
quantized value is carried). -/
structure Output where
  total_revenue : Dec
  best_selling_sku : BestOut
deriving DecidableEq, Repr

/-- Model of `build_output`. -/
def build_output (total_revenue : Dec) (best_selling : BestOut) : Output :=
  ⟨total_revenue, ⟨best_selling.sku, best_selling.total_quantity⟩⟩

/-- Observable outcome of one run of `main`: whether the process exits
with code 0, what (if anything) was written to the output file, and what
was printed. -/
structure RunResult where
  exitZero : Bool
  written : Option Output
  printed : Option Output
deriving DecidableEq, Repr

/-- Model of `main`: check the input file exists, load, aggregate, build
the result, then (only then) write and print it.  Any raised error makes
the interpreter exit non-zero before the output file is opened. -/
def runMain (inputExists : Bool) (rows : List (List String)) : RunResult :=
  if !inputExists then ⟨false, none, none⟩
  else
    match load_orders rows with
    | .error _ => ⟨false, none, none⟩
    | .ok records =>
      match calculate_total_revenue records with
      | none => ⟨false, none, none⟩
      | some tr =>
        match find_best_selling_sku records with
        | none => ⟨false, none, none⟩
        | some best =>
          let out := build_output tr best
          ⟨true, some out, some out⟩

/-! ### Sanity checks of the embedding on concrete inputs -/

example :
    load_orders [["sku", "quantity", "price"], ["A", "2", "10.005"], ["B", "1", "5.00"]]
      = .ok [⟨"A", .fin 2, .fin (2001 / 200)⟩, ⟨"B", .fin 1, .fin 5⟩] := by decide

example :
    calculate_total_revenue [⟨"A", .fin 2, .fin (2001 / 200)⟩, ⟨"B", .fin 1, .fin 5⟩]
      = some (.fin (2501 / 100)) := by decide

example :
    find_best_selling_sku [⟨"A", .fin 2, .fin (2001 / 200)⟩, ⟨"B", .fin 1, .fin 5⟩]
      = some ⟨some "A", .int 2⟩ := by decide

example :
    find_best_selling_sku [⟨"B", .fin 3, .fin 1⟩, ⟨"A", .fin 3, .fin 2⟩]
      = some ⟨some "A", .int 3⟩ := by decide

example :
    load_orders [["sku", "quantity", "price"], ["A", "Infinity", "1"]]
      = .ok [⟨"A", .inf false, .fin 1⟩] := by decide

example : calculate_total_revenue [⟨"A", .inf false, .fin 1⟩] = none := by decide

example : find_best_selling_sku [⟨"A", .inf false, .fin 1⟩] = none := by decide

example :
    load_orders [["sku", "quantity", "price"], ["", "1", "1"]]
      = .ok [⟨"", .fin 1, .fin 1⟩] := by decide

example :
    load_orders [["quantity", "price", "sku"], ["1", "2"]] = .error (.row 1) := by decide

example :
    load_orders [["sku", "quantity", "price"], ["A", "1", "1"], ["B", "2", "2"], ["C", "-1", "3"]]
      = .error (.row 3) := by decide

example : missingCols ["sku", "amount", "cost"] = ["price", "quantity"] := by decide

example :
    runMain true [["sku", "quantity", "price"]]
      = ⟨true, some ⟨.fin 0, none, .int 0⟩, some ⟨.fin 0, none, .int 0⟩⟩ := by decide

example :
    find_best_selling_sku [⟨"A", .fin (5 / 2), .fin 1⟩]
      = some ⟨some "A", .frac (5 / 2)⟩ := by decide

example :
    load_orders [["sku", "quantity", "price"], [], ["A", "x", "1"]]
      = .error (.row 1) := by decide

example :
    load_orders [["sku", "quantity", "price"], ["A", "NaN", "1"]]
      = .error (.row 1) := by decide

/-! ### Specification-side notions -/

/-- The exact revenue contribution `quantity × price` of one record (only
meaningful on records with finite values). -/
def qpVal (r : OrderRecord) : ℚ := r.quantity.val * r.price.val

/-- Every record of the list carries finite quantity and price values
(the data-model reading of a validated `OrderRecord`: an exact decimal,
not a special value). -/
def AllFin (records : List OrderRecord) : Prop :=
  ∀ r ∈ records, r.quantity.isFin = true ∧ r.price.isFin = true

instance (records : List OrderRecord) : Decidable (AllFin records) := by
  unfold AllFin
  infer_instance

/-- Total quantity of a SKU over a record list, the specification's
"sum quantities per distinct SKU". -/
def skuQty (records : List OrderRecord) (s : String) : ℚ :=
  ((records.filter (fun r => r.sku = s)).map (fun r => r.quantity.val)).sum

/-- Sum of the first `n` quantities recorded for SKU `s`, in record
order: the running total the `defaultdict` holds for `s`. -/
def skuQtyPrefix (records : List OrderRecord) (s : String) (n : ℕ) : ℚ :=
  (((records.filter (fun r => r.sku = s)).map (fun r => r.quantity.val)).take n).sum

/-- The default context leaves this value unchanged: rounding to 28
significant digits does not alter it and no overflow is signalled.  This
is the spec's "no intermediate rounding" at one value. -/
def Fits28 (q : ℚ) : Prop := ctxRound q = some q

instance (q : ℚ) : Decidable (Fits28 q) := by
  unfold Fits28
  infer_instance

lemma fits28_zero : Fits28 0 := by decide

/-- No intermediate rounding occurs while summing the revenue of these
records: every product `quantity × price` and every prefix of the
running total is left unchanged by the context. -/
def ExactRevenue (records : List OrderRecord) : Prop :=
  (∀ r ∈ records, Fits28 (qpVal r))
  ∧ ∀ n ≤ records.length, Fits28 (((records.map qpVal).take n).sum)

instance (records : List OrderRecord) : Decidable (ExactRevenue records) := by
  unfold ExactRevenue
  infer_instance

/-- No intermediate rounding occurs while grouping quantities by SKU:
every prefix of every SKU's running total is left unchanged by the
context. -/
def ExactGroup (records : List OrderRecord) : Prop :=
  ∀ s ∈ records.map OrderRecord.sku, ∀ n ≤ records.length,
    Fits28 (skuQtyPrefix records s n)

instance (records : List OrderRecord) : Decidable (ExactGroup records) := by
  unfold ExactGroup
  infer_instance

lemma exactRevenue_prefix {records : List OrderRecord} (h : ExactRevenue records) :
    ∀ n, Fits28 (((records.map qpVal).take n).sum) := by
  intro n
  by_cases hn : n ≤ records.length
  · exact h.2 n hn
  · have hlen : (records.map qpVal).length ≤ n := by
      rw [List.length_map]
      omega
    rw [List.take_of_length_le hlen]
    have h2 := h.2 records.length le_rfl
    rwa [List.take_of_length_le (by rw [List.length_map])] at h2

lemma exactGroup_all {records : List OrderRecord} (h : ExactGroup records) :
    ∀ s n, Fits28 (skuQtyPrefix records s n) := by
  intro s n
  by_cases hs : s ∈ records.map OrderRecord.sku
  · have hflen : ((records.filter (fun r => r.sku = s)).map fun r => r.quantity.val).length
        ≤ records.length := by
      rw [List.length_map]
      exact List.length_filter_le _ _
    by_cases hn : n ≤ records.length
    · exact h s hs n hn
    · have h2 := h s hs records.length le_rfl
      unfold skuQtyPrefix at h2 ⊢
      rw [List.take_of_length_le (le_trans hflen (by omega))]
      rwa [List.take_of_length_le hflen] at h2
  · have hnil : records.filter (fun r => r.sku = s) = [] := by
      rw [List.filter_eq_nil_iff]
      intro r hr
      simp only [decide_eq_true_eq]
      intro hsk
      exact hs (hsk ▸ List.mem_map_of_mem OrderRecord.sku hr)
    unfold skuQtyPrefix
    rw [hnil]
    simpa using fits28_zero

/-- The capacity test of `decQuantize2` in value terms. -/
lemma adjCond_false_iff (q : ℚ) (k : ℤ) : adjCond q k = false ↔ |q| < pow10 k := by
  simp [adjCond, not_le]

lemma Dec.isFin_iff {d : Dec} : d.isFin = true ↔ ∃ q, d = .fin q := by
  cases d <;> simp [Dec.isFin]

/-! ### The revenue fold -/

lemma revenue_foldlM :
    ∀ records : List OrderRecord, AllFin records →
      (∀ r ∈ records, Fits28 (qpVal r)) →
      ∀ a : ℚ, (∀ n, Fits28 (a + ((records.map qpVal).take n).sum)) →
        records.foldlM revStep (Dec.fin a)
          = some (.fin (a + (records.map qpVal).sum)) := by
  intro records
  induction records with
  | nil =>
    intro _ _ a _
    simp
  | cons r rest ih =>
    intro h hprod a hpre
    obtain ⟨hq, hp⟩ := h r (List.mem_cons_self _ _)
    obtain ⟨q, hq⟩ := Dec.isFin_iff.mp hq
    obtain ⟨p, hp⟩ := Dec.isFin_iff.mp hp
    have hqp : qpVal r = q * p := by
      rw [qpVal, hq, hp]
      rfl
    have hprodr : ctxRound (q * p) = some (q * p) := by
      have h2 := hprod r (List.mem_cons_self _ _)
      rw [hqp] at h2
      exact h2
    have haq : ctxRound (a + q * p) = some (a + q * p) := by
      have h3 : Fits28 (a + q * p) := by simpa [hqp] using hpre 1
      exact h3
    have hpre2 : ∀ n, Fits28 (a + q * p + ((rest.map qpVal).take n).sum) := by
      intro n
      simpa [hqp, add_assoc] using hpre (n + 1)
    have ih2 := ih (fun r hr => h r (List.mem_cons_of_mem _ hr))
      (fun r hr => hprod r (List.mem_cons_of_mem _ hr)) (a + q * p) hpre2
    simp only [List.foldlM_cons, List.map_cons, List.sum_cons]
    rw [show revStep (Dec.fin a) r = some (.fin (a + q * p)) by
      simp [revStep, hq, hp, decMul, decAdd, hprodr, haq]]
    simp only [Option.bind_eq_bind, Option.some_bind] at ih2 ⊢
    rw [ih2, hqp]
    simp [add_assoc]

/-- C1 (amended): when no intermediate result is altered by the default
context's 28-significant-digit rounding (`ExactRevenue`) and the
quantized total's coefficient fits (`|total| < 10 ^ 26`),
`calculate_total_revenue` returns the exact rational sum of
`quantity × price` over all records rounded to 2 fractional digits
half-up; on the empty list the result is `0.00`.  Without the rounding
proviso the claim is false of the code: see the counterexample, where an
intermediate sum is rounded at the 28th digit. -/
theorem calculate_total_revenue_spec (records : List OrderRecord)
    (hfin : AllFin records) (hex : ExactRevenue records)
    (hcap : |roundHalfUp2 ((records.map qpVal).sum)| < pow10 26) :
    calculate_total_revenue records
        = some (.fin (roundHalfUp2 ((records.map qpVal).sum)))
    ∧ calculate_total_revenue [] = some (.fin 0) := by
  constructor
  · have hpre : ∀ n, Fits28 (0 + ((records.map qpVal).take n).sum) := by
      intro n
      simpa using exactRevenue_prefix hex n
    have hfold := revenue_foldlM records hfin hex.1 0 hpre
    unfold calculate_total_revenue
    rw [hfold]
    simp only [Option.bind_eq_bind, Option.some_bind, zero_add, decQuantize2,
      (adjCond_false_iff _ _).mpr hcap, Bool.false_eq_true, if_false]
  · decide

/-- C1 witness: the spec's own example, `[(A,2,10.005),(B,1,5.00)]`, has
revenue exactly `25.01`. -/
theorem calculate_total_revenue_spec_witness :
    calculate_total_revenue [⟨"A", .fin 2, .fin (2001 / 200)⟩, ⟨"B", .fin 1, .fin 5⟩]
      = some (.fin (2501 / 100)) := by
  rw [(calculate_total_revenue_spec
    [⟨"A", .fin 2, .fin (2001 / 200)⟩, ⟨"B", .fin 1, .fin 5⟩]
    (by decide) (by decide) (by decide)).1]
  decide

/-- C1 counterexample (claim as stated): for the loadable records
`[(A,1e25,1),(B,0.005,1)]` the program's running total is rounded at the
28th significant digit (`1e25 + 0.005` rounds half-even back to `1e25`),
so the returned revenue is `1e25.00`, not the exact-decimal half-up sum
`1e25.01`: the sum is not computed free of intermediate rounding. -/
theorem revenue_rounds_at_context_precision :
    load_orders [["sku", "quantity", "price"], ["A", "1e25", "1"], ["B", "0.005", "1"]]
      = .ok [⟨"A", .fin (10 ^ 25), .fin 1⟩, ⟨"B", .fin (5 / 1000), .fin 1⟩]
    ∧ calculate_total_revenue
        [⟨"A", .fin (10 ^ 25), .fin 1⟩, ⟨"B", .fin (5 / 1000), .fin 1⟩]
      = some (.fin (10 ^ 25))
    ∧ roundHalfUp2
        ((([⟨"A", .fin (10 ^ 25), .fin 1⟩, ⟨"B", .fin (5 / 1000), .fin 1⟩]
            : List OrderRecord).map qpVal).sum)
      = 10 ^ 25 + 1 / 100
    ∧ (10 ^ 25 : ℚ) ≠ 10 ^ 25 + 1 / 100 := by
  decide

/-! ### Loaded records satisfy the numeric invariant (C3) -/

lemma parseRow_nonneg {header row : List String} {r : OrderRecord}
    (h : parseRow header row = some r) :
    decIsNeg r.quantity = some false ∧ decIsNeg r.price = some false := by
  simp only [parseRow, Option.bind_eq_bind, Option.bind_eq_some] at h
  obtain ⟨skuCell, hsku, qty, hq, price, hp, qn, hqn, h⟩ := h
  cases qn
  · simp only [Bool.false_eq_true, if_false, Option.bind_eq_some] at h
    obtain ⟨pn, hpn, h⟩ := h
    cases pn
    · simp only [Bool.false_eq_true, if_false, Option.some.injEq] at h
      subst h
      exact ⟨hqn, hpn⟩
    · simp at h
  · simp at h

lemma loadRows_ok_mem {header : List String} :
    ∀ (rows : List (List String)) (i : ℕ) (recs : List OrderRecord),
      loadRows header i rows = .ok recs →
      ∀ r ∈ recs, ∃ row, parseRow header row = some r := by
  intro rows
  induction rows with
  | nil =>
    intro i recs h r hr
    simp only [loadRows] at h
    cases h
    simp at hr
  | cons row rest ih =>
    intro i recs h r hr
    simp only [loadRows] at h
    cases hp : parseRow header row <;> rw [hp] at h
    · cases h
    cases hrest : loadRows header (i + 1) rest <;> rw [hrest] at h
    · cases h
    cases h
    rcases List.mem_cons.mp hr with h1 | h1
    · exact ⟨row, h1 ▸ hp⟩
    · exact ih (i + 1) _ hrest r h1

/-- C3 (amended): every record returned by a successful `load_orders` has
non-negative quantity and price (`d < 0` evaluated to `False`, which on
non-NaN decimals means `d ≥ 0`); an invalid numeric row aborts the whole
load (the result type returns either an error or the full list, never a
partial one).  The claim's `sku ≠ ""` part is false: see the
counterexample. -/
lemma load_orders_ok_shape (rows : List (List String)) (recs : List OrderRecord)
    (h : load_orders rows = .ok recs) :
    ∃ header dataRows, rows = header :: dataRows
      ∧ missingCols header = []
      ∧ loadRows header 1 (dataRows.filter (fun r => !r.isEmpty)) = .ok recs := by
  revert h
  cases rows with
  | nil => intro h; exact absurd h (by simp [load_orders])
  | cons header dataRows =>
    intro h
    simp only [load_orders] at h
    split at h
    · exact ⟨header, dataRows, rfl, by assumption, h⟩
    · cases h

theorem load_records_nonneg (rows : List (List String)) (recs : List OrderRecord)
    (h : load_orders rows = .ok recs) :
    ∀ r ∈ recs, decIsNeg r.quantity = some false ∧ decIsNeg r.price = some false := by
  intro r hr
  obtain ⟨header, dataRows, -, -, hload⟩ := load_orders_ok_shape rows recs h
  obtain ⟨row, hrow⟩ := loadRows_ok_mem _ 1 recs hload r hr
  exact parseRow_nonneg hrow

/-- C3 witness: `load_records_nonneg` applied to a concrete two-row load. -/
theorem load_records_nonneg_witness :
    decIsNeg (OrderRecord.quantity ⟨"A", .fin 2, .fin (2001 / 200)⟩) = some false
    ∧ decIsNeg (OrderRecord.price ⟨"A", .fin 2, .fin (2001 / 200)⟩) = some false :=
  load_records_nonneg [["sku", "quantity", "price"], ["A", "2", "10.005"]]
    [⟨"A", .fin 2, .fin (2001 / 200)⟩] (by decide)
    ⟨"A", .fin 2, .fin (2001 / 200)⟩ (by decide)

/-- C3 counterexample: a row with an empty (whitespace-only) `sku` is not
rejected: `load_orders` returns a record whose `sku` is the empty string,
so the claimed invariant `sku ≠ ""` does not hold for the code. -/
theorem empty_sku_record_loaded :
    load_orders [["sku", "quantity", "price"], ["", "1", "1"]]
      = .ok [⟨"", .fin 1, .fin 1⟩]
    ∧ OrderRecord.sku ⟨"", .fin 1, .fin 1⟩ = "" := by decide

/-! ### Schema errors (C5) -/

lemma loadRows_error_shape {header : List String} :
    ∀ (rows : List (List String)) (i : ℕ) (e : LoadError),
      loadRows header i rows = .error e → ∃ j, e = .row j := by
  intro rows
  induction rows with
  | nil => intro i e h; cases h
  | cons row rest ih =>
    intro i e h
    simp only [loadRows] at h
    cases hp : parseRow header row <;> rw [hp] at h
    · cases h
      exact ⟨i, rfl⟩
    · cases hrest : loadRows header (i + 1) rest <;> rw [hrest] at h
      · cases h
        exact ih (i + 1) _ hrest
      · cases h

/-- C5: `load_orders` fails with the schema error, whatever the data rows
are, exactly when a required column is missing from the header; the error
carries precisely the missing required columns, sorted alphabetically
(by code point, as Python `sorted`); and on the spec's example header
`sku,amount,cost` it names `price, quantity`. -/
theorem load_schema_error_spec (header : List String) (dataRows : List (List String)) :
    (load_orders (header :: dataRows) = .error (.schema (missingCols header))
        ↔ missingCols header ≠ [])
    ∧ (∀ m, load_orders (header :: dataRows) = .error (.schema m) → m = missingCols header)
    ∧ (∀ c, c ∈ missingCols header ↔ c ∈ requiredSorted ∧ ¬ c ∈ header)
    ∧ List.Pairwise (fun a b => strLt a.toList b.toList = true) (missingCols header)
    ∧ missingCols ["sku", "amount", "cost"] = ["price", "quantity"] := by
  refine ⟨⟨?_, ?_⟩, ?_, ?_, ?_, by decide⟩
  · intro h hm
    simp only [load_orders, if_pos hm] at h
    obtain ⟨j, hj⟩ := loadRows_error_shape _ 1 _ h
    cases hj
  · intro hm
    simp only [load_orders, if_neg hm]
  · intro m h
    by_cases hm : missingCols header = []
    · simp only [load_orders, if_pos hm] at h
      obtain ⟨j, hj⟩ := loadRows_error_shape _ 1 _ h
      cases hj
    · simp only [load_orders, if_neg hm, Except.error.injEq, LoadError.schema.injEq] at h
      exact h.symm
  · intro c
    simp [missingCols, List.mem_filter]
  · exact List.Pairwise.sublist (List.filter_sublist _) (by decide)

/-! ### Empty data set (C6) -/

/-- C6: with any header containing the three required columns and no data
rows, the pipeline succeeds and produces total revenue `0.00`, a `null`
best SKU, and the integer `0` as its total quantity. -/
theorem empty_dataset_output (header : List String) (h : missingCols header = []) :
    runMain true [header]
      = ⟨true, some ⟨.fin 0, ⟨none, .int 0⟩⟩, some ⟨.fin 0, ⟨none, .int 0⟩⟩⟩ := by
  have hload : load_orders [header] = .ok [] := by
    simp only [load_orders, if_pos h]
    rfl
  simp only [runMain, Bool.not_true, Bool.false_eq_true, if_false, hload]
  rw [show calculate_total_revenue [] = some (.fin 0) from by decide]
  rw [show find_best_selling_sku [] = some ⟨none, .int 0⟩ from by decide]
  rfl

/-- C6 witness: `empty_dataset_output` at the plain header
`sku,quantity,price`. -/
theorem empty_dataset_output_witness :
    runMain true [["sku", "quantity", "price"]]
      = ⟨true, some ⟨.fin 0, ⟨none, .int 0⟩⟩, some ⟨.fin 0, ⟨none, .int 0⟩⟩⟩ :=
  empty_dataset_output ["sku", "quantity", "price"] (by decide)

/-! ### No output on failure (C8) -/

/-- C8: a run exits non-zero exactly when nothing is written to the
output file; the output file receives a value only when the input file
exists and loading, both aggregations, and result building all succeed,
and then it receives exactly the built output; a missing input file or
any load error writes nothing and exits non-zero. -/
theorem no_output_on_failure (ex : Bool) (rows : List (List String)) :
    ((runMain ex rows).exitZero = false ↔ (runMain ex rows).written = none)
    ∧ (∀ out, (runMain ex rows).written = some out →
        ex = true ∧ ∃ recs tr best,
          load_orders rows = .ok recs
          ∧ calculate_total_revenue recs = some tr
          ∧ find_best_selling_sku recs = some best
          ∧ out = build_output tr best)
    ∧ (ex = false → runMain ex rows = ⟨false, none, none⟩)
    ∧ (∀ e, load_orders rows = .error e →
        (runMain ex rows).written = none ∧ (runMain ex rows).exitZero = false) := by
  cases ex
  · simp [runMain]
  · cases hl : load_orders rows with
    | error e => simp [runMain, hl]
    | ok recs =>
      cases hc : calculate_total_revenue recs with
      | none => simp [runMain, hl, hc]
      | some tr =>
        cases hb : find_best_selling_sku recs with
        | none => simp [runMain, hl, hc, hb]
        | some best =>
          refine ⟨by simp [runMain, hl, hc, hb], ?_, by simp, ?_⟩
          · intro out hout
            simp only [runMain, Bool.not_true, Bool.false_eq_true, if_false, hl, hc, hb,
              Option.some.injEq] at hout
            exact ⟨rfl, recs, tr, best, rfl, hc, hb, hout.symm⟩
          · intro e he
            cases he

/-! ### Validation errors (C4) -/

/-- Row badness exactly as C4 words it: the row's quantity or price fails
decimal parsing or parses to a negative value. -/
def claimBadQtyPrice (header row : List String) : Bool :=
  (to_decimal (cell header row "quantity")).isNone
  || (to_decimal (cell header row "price")).isNone
  || decide ((to_decimal (cell header row "quantity")).bind decIsNeg = some true)
  || decide ((to_decimal (cell header row "price")).bind decIsNeg = some true)

/-- Row badness as the code behaves: the row dict's `sku` value is `None`
(short row, `None.strip()` raises), or the quantity or price does not
parse to a decimal that compares `< 0` as `False` (covers parse failure,
NaN, whose comparison raises, and negative values). -/
def rowInvalid (header row : List String) : Bool :=
  (cell header row "sku").isNone
  || !(decide ((to_decimal (cell header row "quantity")).bind decIsNeg = some false))
  || !(decide ((to_decimal (cell header row "price")).bind decIsNeg = some false))

lemma parseRow_eq_none_iff (header row : List String) :
    (parseRow header row = none) ↔ rowInvalid header row = true := by
  unfold parseRow rowInvalid
  cases cell header row "sku" with
  | none => simp
  | some skuCell =>
    cases to_decimal (cell header row "quantity") with
    | none => simp
    | some qty =>
      cases to_decimal (cell header row "price") with
      | none => simp
      | some price =>
        cases hqn : decIsNeg qty with
        | none => simp [hqn]
        | some qn =>
          cases hpn : decIsNeg price with
          | none => cases qn <;> simp [hqn, hpn]
          | some pn => cases qn <;> cases pn <;> simp [hqn, hpn]

/-- Zero-based index of the first invalid row of a list of (non-blank)
rows. -/
def firstIdxInvalid (header : List String) : List (List String) → Option ℕ
  | [] => none
  | row :: rest =>
    if rowInvalid header row then some 0 else (firstIdxInvalid header rest).map (· + 1)

/-- One-based index of the first invalid data row, counted over the
non-blank data rows, as the row loop of `load_orders` counts them. -/
def firstInvalidRow (header : List String) (dataRows : List (List String)) : Option ℕ :=
  (firstIdxInvalid header (dataRows.filter (fun r => !r.isEmpty))).map (· + 1)

lemma loadRows_error_iff {header : List String} :
    ∀ (rows : List (List String)) (k i : ℕ),
      loadRows header k rows = .error (.row i)
        ↔ (firstIdxInvalid header rows).map (· + k) = some i := by
  intro rows
  induction rows with
  | nil => intro k i; simp [loadRows, firstIdxInvalid]
  | cons row rest ih =>
    intro k i
    simp only [loadRows, firstIdxInvalid]
    by_cases hbad : rowInvalid header row = true
    · rw [if_pos hbad, (parseRow_eq_none_iff _ _).mpr hbad]
      simp [eq_comm]
    · rw [if_neg hbad]
      obtain ⟨r, hr⟩ := Option.ne_none_iff_exists'.mp
        (fun hn => hbad ((parseRow_eq_none_iff _ _).mp hn))
      rw [hr]
      have hmap : ((firstIdxInvalid header rest).map (· + 1)).map (· + k)
          = (firstIdxInvalid header rest).map (· + (k + 1)) := by
        cases firstIdxInvalid header rest with
        | none => simp
        | some j => simp; omega
      rw [hmap, ← ih (k + 1) i]
      cases hrest : loadRows header (k + 1) rest <;> simp

/-- C4 (amended): with a valid header, `load_orders` raises the row
`ValueError` with 1-based number `i` exactly when the `i`-th non-blank
data row is the first invalid one, where a row is invalid when its `sku`
field is missing (a short row), or its quantity or price fails decimal
parsing (a missing field becomes the unparseable string `"None"`), or is
NaN, or is negative.  The claim's restriction of invalidity to a bad
quantity or price value is refuted by the counterexample; the fail-fast
clause is structural (the result is either one error or the full list). -/
theorem load_validation_error_iff (header : List String) (dataRows : List (List String))
    (h : missingCols header = []) (i : ℕ) :
    load_orders (header :: dataRows) = .error (.row i)
      ↔ firstInvalidRow header dataRows = some i := by
  simp only [load_orders, if_pos h, firstInvalidRow]
  exact loadRows_error_iff _ 1 i

/-- C4 witness: the spec's example — a negative quantity on data row 2 is
reported as row 2. -/
theorem load_validation_error_iff_witness :
    load_orders [["sku", "quantity", "price"], ["A", "1", "1"], ["B", "-1", "1"]]
      = .error (.row 2)
    ∧ firstInvalidRow ["sku", "quantity", "price"] [["A", "1", "1"], ["B", "-1", "1"]]
      = some 2 :=
  ⟨(load_validation_error_iff ["sku", "quantity", "price"] [["A", "1", "1"], ["B", "-1", "1"]]
      (by decide) 2).mpr (by decide),
    by decide⟩

/-- C4 counterexample: under header `quantity,price,sku` the short data
row `1,2` has `sku = None`, so `None.strip()` raises and `load_orders`
fails on row 1, although the row's quantity `1` and price `2` both parse
as non-negative decimals: a validation error is raised though no
quantity or price fails parsing or is negative. -/
theorem validation_error_without_bad_value :
    load_orders [["quantity", "price", "sku"], ["1", "2"]] = .error (.row 1)
    ∧ claimBadQtyPrice ["quantity", "price", "sku"] ["1", "2"] = false
    ∧ to_decimal (cell ["quantity", "price", "sku"] ["1", "2"] "quantity") = some (.fin 1)
    ∧ to_decimal (cell ["quantity", "price", "sku"] ["1", "2"] "price") = some (.fin 2) := by
  decide

/-! ### Aggregation is not total on raw load output (C10) -/

/-- C10 counterexample: the quantity `Infinity` parses as a `Decimal`,
is not negative, and so survives `load_orders`; but then
`calculate_total_revenue` raises `InvalidOperation` in `quantize`, and
`find_best_selling_sku` raises `OverflowError` in `int(...)`.  Even an
all-finite load is not safe: the quantity `1e26` loads as a finite
decimal, yet quantizing the total `1e26` to two places needs a 29-digit
coefficient, so `quantize` raises `InvalidOperation`. -/
theorem aggregation_raises_on_infinity :
    load_orders [["sku", "quantity", "price"], ["A", "Infinity", "1"]]
      = .ok [⟨"A", .inf false, .fin 1⟩]
    ∧ calculate_total_revenue [⟨"A", .inf false, .fin 1⟩] = none
    ∧ find_best_selling_sku [⟨"A", .inf false, .fin 1⟩] = none
    ∧ load_orders [["sku", "quantity", "price"], ["A", "1e26", "1"]]
      = .ok [⟨"A", .fin (10 ^ 26), .fin 1⟩]
    ∧ calculate_total_revenue [⟨"A", .fin (10 ^ 26), .fin 1⟩] = none := by decide

/-! ### The code-point string order -/

lemma strLt_irrefl : ∀ a, strLt a a = false := by
  intro a
  induction a with
  | nil => rfl
  | cons c cs ih => simp [strLt, ih]

lemma strLt_asymm : ∀ {a b}, strLt a b = true → strLt b a = false := by
  intro a
  induction a with
  | nil => intro b h; cases b <;> simp_all [strLt]
  | cons c cs ih =>
    intro b h
    cases b with
    | nil => simp [strLt] at h
    | cons d ds =>
      simp only [strLt] at h ⊢
      by_cases hcd : c < d
      · rw [if_neg (asymm hcd), if_pos hcd]
      · rw [if_neg hcd] at h
        by_cases hdc : d < c
        · rw [if_pos hdc] at h
          cases h
        · rw [if_neg hdc] at h
          rw [if_neg hdc, if_neg hcd]
          exact ih h

lemma strLt_trans : ∀ {a b c}, strLt a b = true → strLt b c = true → strLt a c = true := by
  intro a
  induction a with
  | nil =>
    intro b c hab hbc
    cases b with
    | nil => simp [strLt] at hab
    | cons d ds => cases c <;> simp_all [strLt]
  | cons x xs ih =>
    intro b c hab hbc
    cases b with
    | nil => simp [strLt] at hab
    | cons y ys =>
      cases c with
      | nil => simp [strLt] at hbc
      | cons z zs =>
        simp only [strLt] at hab hbc ⊢
        by_cases hxy : x < y
        · by_cases hyz : y < z
          · rw [if_pos (lt_trans hxy hyz)]
          · rw [if_neg hyz] at hbc
            by_cases hzy : z < y
            · rw [if_pos hzy] at hbc
              cases hbc
            · have hyz2 : y = z := le_antisymm (not_lt.mp hzy) (not_lt.mp hyz)
              rw [if_pos (hyz2 ▸ hxy)]
        · rw [if_neg hxy] at hab
          by_cases hyx : y < x
          · rw [if_pos hyx] at hab
            cases hab
          · rw [if_neg hyx] at hab
            have hxy2 : x = y := le_antisymm (not_lt.mp hyx) (not_lt.mp hxy)
            subst hxy2
            by_cases hxz : x < z
            · rw [if_pos hxz]
            · rw [if_neg hxz] at hbc ⊢
              by_cases hzx : z < x
              · rw [if_pos hzx] at hbc
                cases hbc
              · rw [if_neg hzx] at hbc ⊢
                exact ih hab hbc

lemma strLt_eq_of_not : ∀ {a b}, strLt a b = false → strLt b a = false → a = b := by
  intro a
  induction a with
  | nil => intro b hab _; cases b <;> simp_all [strLt]
  | cons x xs ih =>
    intro b hab hba
    cases b with
    | nil => simp [strLt] at hba
    | cons y ys =>
      simp only [strLt] at hab hba
      by_cases hxy : x < y
      · rw [if_pos hxy] at hab
        cases hab
      · by_cases hyx : y < x
        · rw [if_pos hyx] at hba
          cases hba
        · rw [if_neg hxy, if_neg hyx] at hab
          rw [if_neg hyx, if_neg hxy] at hba
          have hxy2 : x = y := le_antisymm (not_lt.mp hyx) (not_lt.mp hxy)
          rw [hxy2, ih hab hba]

lemma strLe_refl (a : List Char) : strLe a a = true := by
  simp [strLe, strLt_irrefl]

lemma strLe_total (a b : List Char) : strLe a b = true ∨ strLe b a = true := by
  simp only [strLe, Bool.not_eq_true']
  by_cases h : strLt b a = true
  · exact Or.inr (strLt_asymm h)
  · exact Or.inl (by simpa using h)

lemma strLe_antisymm {a b : List Char} (hab : strLe a b = true) (hba : strLe b a = true) :
    a = b := by
  simp only [strLe, Bool.not_eq_true'] at hab hba
  exact strLt_eq_of_not hba hab

lemma strLe_trans {a b c : List Char} (hab : strLe a b = true) (hbc : strLe b c = true) :
    strLe a c = true := by
  simp only [strLe, Bool.not_eq_true'] at hab hbc ⊢
  cases hca : strLt c a with
  | false => rfl
  | true =>
    exfalso
    cases hbc2 : strLt b c with
    | true =>
      have : strLt b a = true := strLt_trans hbc2 hca
      rw [this] at hab
      cases hab
    | false =>
      have hbceq : b = c := strLt_eq_of_not hbc2 hbc
      rw [hbceq] at hab
      rw [hab] at hca
      cases hca

instance : IsTotal (String × Dec) skuLE :=
  ⟨fun a b => strLe_total a.1.toList b.1.toList⟩

instance : IsTrans (String × Dec) skuLE :=
  ⟨fun _ _ _ hab hbc => strLe_trans hab hbc⟩

lemma sortBySku_perm (l : List (String × Dec)) : List.Perm (sortBySku l) l :=
  List.perm_insertionSort skuLE l

lemma sortBySku_sorted (l : List (String × Dec)) :
    (sortBySku l).Pairwise skuLE :=
  List.sorted_insertionSort skuLE l

/-! ### Grouping by SKU -/

/-- The keys of the `qty_by_sku` association list, in insertion order. -/
def keysOf (m : List (String × Dec)) : List String := m.map Prod.fst

/-- All stored totals are finite. -/
def FinVals (m : List (String × Dec)) : Prop := ∀ p ∈ m, (p.2).isFin = true

/-- The rational total stored for a key (`0` when the key is absent; only
used when the stored values are finite). -/
def qtyOf : List (String × Dec) → String → ℚ
  | [], _ => 0
  | (s, v) :: rest, t => if t = s then v.val else qtyOf rest t

lemma bumpQty_spec (m : List (String × Dec)) (s : String) (qv : ℚ) (hfin : FinVals m)
    (hfit : Fits28 (qtyOf m s + qv)) :
    ∃ m', bumpQty m s (.fin qv) = some m'
      ∧ keysOf m' = (if s ∈ keysOf m then keysOf m else keysOf m ++ [s])
      ∧ FinVals m'
      ∧ (∀ t, qtyOf m' t = if t = s then qtyOf m t + qv else qtyOf m t) := by
  induction m with
  | nil =>
    have h0 : ctxRound (0 + qv) = some (0 + qv) := by
      simpa [qtyOf] using hfit
    refine ⟨[(s, .fin (0 + qv))], ?_, by simp [keysOf], ?_, ?_⟩
    · simp only [bumpQty, decAdd]
      rw [h0]
      rfl
    · intro p hp
      simp only [List.mem_singleton] at hp
      subst hp
      rfl
    · intro t
      by_cases ht : t = s <;> simp [qtyOf, ht, Dec.val]
  | cons p rest ih =>
    obtain ⟨s₀, v₀⟩ := p
    have hv₀ : v₀.isFin = true := hfin (s₀, v₀) (List.mem_cons_self _ _)
    obtain ⟨q₀, rfl⟩ := Dec.isFin_iff.mp hv₀
    by_cases hs : s₀ = s
    · subst hs
      have h0 : ctxRound (q₀ + qv) = some (q₀ + qv) := by
        simpa [qtyOf, Dec.val] using hfit
      refine ⟨(s₀, .fin (q₀ + qv)) :: rest, ?_, ?_, ?_, ?_⟩
      · rw [show bumpQty ((s₀, Dec.fin q₀) :: rest) s₀ (Dec.fin qv)
            = (decAdd (Dec.fin q₀) (Dec.fin qv)).map (fun v2 => (s₀, v2) :: rest) from by
          simp [bumpQty]]
        simp only [decAdd]
        rw [h0]
        rfl
      · simp [keysOf]
      · intro p hp
        rcases List.mem_cons.mp hp with h1 | h1
        · subst h1; rfl
        · exact hfin p (List.mem_cons_of_mem _ h1)
      · intro t
        by_cases ht : t = s₀ <;> simp [qtyOf, ht, Dec.val]
    · have hfit2 : Fits28 (qtyOf rest s + qv) := by
        have hneq : ¬ s = s₀ := fun h => hs h.symm
        simpa [qtyOf, hneq] using hfit
      obtain ⟨m₂, hm₂, hkeys, hfin₂, hq⟩ :=
        ih (fun p hp => hfin p (List.mem_cons_of_mem _ hp)) hfit2
      refine ⟨(s₀, .fin q₀) :: m₂, ?_, ?_, ?_, ?_⟩
      · simp [bumpQty, if_neg hs, hm₂]
      · have hcons : s ∈ keysOf ((s₀, Dec.fin q₀) :: rest) ↔ s = s₀ ∨ s ∈ keysOf rest := by
          simp [keysOf]
        show s₀ :: keysOf m₂ = _
        by_cases hmem : s ∈ keysOf rest
        · rw [if_pos hmem] at hkeys
          rw [if_pos (hcons.mpr (Or.inr hmem)), hkeys]
          rfl
        · rw [if_neg hmem] at hkeys
          rw [if_neg (fun hc => (hcons.mp hc).elim (fun h1 => hs h1.symm) hmem), hkeys]
          rfl
      · intro p hp
        rcases List.mem_cons.mp hp with h1 | h1
        · subst h1; rfl
        · exact hfin₂ p h1
      · intro t
        by_cases ht : t = s₀
        · simp [qtyOf, ht, hs, Dec.val]
        · simp only [qtyOf, if_neg ht]
          exact hq t

lemma skuQty_cons (r : OrderRecord) (rest : List OrderRecord) (t : String) :
    skuQty (r :: rest) t
      = (if r.sku = t then (r.quantity).val else 0) + skuQty rest t := by
  unfold skuQty
  by_cases h : r.sku = t
  · simp [List.filter_cons, h]
  · simp [List.filter_cons, h]

lemma groupQty_go_spec :
    ∀ (records : List OrderRecord) (m₀ : List (String × Dec)),
      (∀ r ∈ records, (r.quantity).isFin = true) →
      FinVals m₀ → (keysOf m₀).Nodup →
      (∀ s n, Fits28 (qtyOf m₀ s + skuQtyPrefix records s n)) →
      ∃ m, records.foldlM (fun m r => bumpQty m r.sku r.quantity) m₀ = some m
        ∧ FinVals m ∧ (keysOf m).Nodup
        ∧ (∀ t, t ∈ keysOf m ↔ t ∈ keysOf m₀ ∨ t ∈ records.map OrderRecord.sku)
        ∧ (∀ t, qtyOf m t = qtyOf m₀ t + skuQty records t) := by
  intro records
  induction records with
  | nil =>
    intro m₀ _ hfin hnodup _
    exact ⟨m₀, rfl, hfin, hnodup, by simp, by simp [skuQty]⟩
  | cons r rest ih =>
    intro m₀ hrec hfin hnodup hfitq
    obtain ⟨q, hq⟩ := Dec.isFin_iff.mp (hrec r (List.mem_cons_self _ _))
    have hfitr : Fits28 (qtyOf m₀ r.sku + q) := by
      simpa [skuQtyPrefix, List.filter_cons, hq, Dec.val] using hfitq r.sku 1
    obtain ⟨m₁, hm₁, hkeys₁, hfin₁, hq₁⟩ := bumpQty_spec m₀ r.sku q hfin hfitr
    have hnodup₁ : (keysOf m₁).Nodup := by
      rw [hkeys₁]
      by_cases hin : r.sku ∈ keysOf m₀
      · rw [if_pos hin]; exact hnodup
      · rw [if_neg hin, List.nodup_append]
        refine ⟨hnodup, List.nodup_singleton _, ?_⟩
        intro a ha hb
        exact hin ((List.mem_singleton.mp hb) ▸ ha)
    have hmem₁ : ∀ t, t ∈ keysOf m₁ ↔ t ∈ keysOf m₀ ∨ t = r.sku := by
      intro t
      rw [hkeys₁]
      by_cases hin : r.sku ∈ keysOf m₀
      · rw [if_pos hin]
        constructor
        · exact Or.inl
        · rintro (h | rfl)
          exacts [h, hin]
      · rw [if_neg hin]
        simp [List.mem_append]
    have hfitq2 : ∀ s n, Fits28 (qtyOf m₁ s + skuQtyPrefix rest s n) := by
      intro s n
      rw [hq₁ s]
      by_cases hsr : s = r.sku
      · rw [if_pos hsr, hsr]
        simpa [skuQtyPrefix, List.filter_cons, hq, Dec.val, add_assoc] using
          hfitq r.sku (n + 1)
      · rw [if_neg hsr]
        have hne2 : ¬ (r.sku = s) := fun h => hsr h.symm
        simpa [skuQtyPrefix, List.filter_cons, hne2] using hfitq s n
    obtain ⟨m, hm, hfinm, hnodupm, hmemm, hqm⟩ :=
      ih m₁ (fun r hr => hrec r (List.mem_cons_of_mem _ hr)) hfin₁ hnodup₁ hfitq2
    refine ⟨m, ?_, hfinm, hnodupm, ?_, ?_⟩
    · rw [List.foldlM_cons, hq, hm₁]
      simpa using hm
    · intro t
      rw [hmemm t, hmem₁ t]
      simp only [List.map_cons, List.mem_cons]
      tauto
    · intro t
      rw [hqm t, hq₁ t, skuQty_cons]
      by_cases ht : t = r.sku
      · rw [if_pos ht, if_pos (by rw [ht]), ht, hq]
        show qtyOf m₀ r.sku + q + _ = qtyOf m₀ r.sku + (Dec.val (.fin q) + _)
        rw [Dec.val]
        ring
      · rw [if_neg ht, if_neg (fun h => ht h.symm)]
        ring_nf

lemma groupQty_spec (records : List OrderRecord)
    (h : ∀ r ∈ records, (r.quantity).isFin = true) (hex : ExactGroup records) :
    ∃ m, groupQty records = some m
      ∧ FinVals m ∧ (keysOf m).Nodup
      ∧ (∀ t, t ∈ keysOf m ↔ t ∈ records.map OrderRecord.sku)
      ∧ (∀ t, qtyOf m t = skuQty records t) := by
  have hbase : ∀ s n, Fits28 (qtyOf ([] : List (String × Dec)) s + skuQtyPrefix records s n) := by
    intro s n
    simpa [qtyOf] using exactGroup_all hex s n
  obtain ⟨m, hm, hfin, hnodup, hmem, hq⟩ :=
    groupQty_go_spec records [] h (by intro p hp; cases hp) List.nodup_nil hbase
  refine ⟨m, hm, hfin, hnodup, ?_, ?_⟩
  · intro t
    rw [hmem t]
    simp [keysOf]
  · intro t
    rw [hq t]
    simp [qtyOf]

/-! ### The first maximum of the sorted items -/

lemma skuLE_refl (a : String × Dec) : skuLE a a := strLe_refl _

lemma pyMaxBy_spec :
    ∀ (xs : List (String × Dec)) (x : String × Dec),
      (∀ p ∈ x :: xs, (p.2).isFin = true) →
      (x :: xs).Pairwise skuLE →
      ∃ b, pyMaxBy x xs = some b ∧ b ∈ x :: xs
        ∧ (∀ z ∈ x :: xs, (z.2).val ≤ (b.2).val)
        ∧ (∀ z ∈ x :: xs, (z.2).val = (b.2).val → skuLE b z) := by
  intro xs
  induction xs with
  | nil =>
    intro x _ _
    refine ⟨x, rfl, List.mem_cons_self _ _, ?_, ?_⟩
    · intro z hz
      rw [List.mem_singleton.mp hz]
    · intro z hz _
      rw [List.mem_singleton.mp hz]
      exact skuLE_refl x
  | cons y ys ih =>
    intro x hfin hsorted
    have hxfin := hfin x (List.mem_cons_self _ _)
    have hyfin := hfin y (List.mem_cons_of_mem _ (List.mem_cons_self _ _))
    obtain ⟨qx, hqx⟩ := Dec.isFin_iff.mp hxfin
    obtain ⟨qy, hqy⟩ := Dec.isFin_iff.mp hyfin
    have hstep : pyMaxBy x (y :: ys) = pyMaxBy (if qx < qy then y else x) ys := by
      simp only [pyMaxBy, List.foldlM_cons, hqx, hqy, decGt, Option.map_some',
        Option.bind_eq_bind, Option.some_bind, decide_eq_true_eq]
    by_cases hlt : qx < qy
    · have hsorted' : (y :: ys).Pairwise skuLE := hsorted.of_cons
      have hfin' : ∀ p ∈ y :: ys, (p.2).isFin = true :=
        fun p hp => hfin p (List.mem_cons_of_mem _ hp)
      obtain ⟨b, hb, hmem, hmax, htie⟩ := ih y hfin' hsorted'
      have hxy : (x.2).val < (y.2).val := by rw [hqx, hqy]; exact hlt
      have hyb := hmax y (List.mem_cons_self _ _)
      refine ⟨b, ?_, List.mem_cons_of_mem _ hmem, ?_, ?_⟩
      · rw [hstep, if_pos hlt]
        exact hb
      · intro z hz
        rcases List.mem_cons.mp hz with rfl | hz'
        · exact le_of_lt (lt_of_lt_of_le hxy hyb)
        · exact hmax z hz'
      · intro z hz hval
        rcases List.mem_cons.mp hz with rfl | hz'
        · exact absurd hval (ne_of_lt (lt_of_lt_of_le hxy hyb))
        · exact htie z hz' hval
    · have hsorted' : (x :: ys).Pairwise skuLE := by
        obtain ⟨hxall, hyys⟩ := List.pairwise_cons.mp hsorted
        exact List.pairwise_cons.mpr
          ⟨fun z hz => hxall z (List.mem_cons_of_mem _ hz), hyys.of_cons⟩
      have hfin' : ∀ p ∈ x :: ys, (p.2).isFin = true := by
        intro p hp
        rcases List.mem_cons.mp hp with rfl | hp'
        · exact hxfin
        · exact hfin p (List.mem_cons_of_mem _ (List.mem_cons_of_mem _ hp'))
      obtain ⟨b, hb, hmem, hmax, htie⟩ := ih x hfin' hsorted'
      have hyx : (y.2).val ≤ (x.2).val := by
        rw [hqx, hqy]
        exact le_of_not_lt hlt
      have hxb := hmax x (List.mem_cons_self _ _)
      refine ⟨b, ?_, ?_, ?_, ?_⟩
      · rw [hstep, if_neg hlt]
        exact hb
      · rcases List.mem_cons.mp hmem with rfl | hmem'
        · exact List.mem_cons_self _ _
        · exact List.mem_cons_of_mem _ (List.mem_cons_of_mem _ hmem')
      · intro z hz
        rcases List.mem_cons.mp hz with rfl | hz'
        · exact hmax z (List.mem_cons_self _ _)
        rcases List.mem_cons.mp hz' with rfl | hz''
        · exact le_trans hyx hxb
        · exact hmax z (List.mem_cons_of_mem _ hz'')
      · intro z hz hval
        rcases List.mem_cons.mp hz with rfl | hz'
        · exact htie z (List.mem_cons_self _ _) hval
        rcases List.mem_cons.mp hz' with rfl | hz''
        · have hxval : (x.2).val = (b.2).val :=
            le_antisymm hxb (by rw [← hval]; exact hyx)
          have hbx : skuLE b x := htie x (List.mem_cons_self _ _) hxval
          have hxz : skuLE x z :=
            (List.pairwise_cons.mp hsorted).1 z (List.mem_cons_self _ _)
          exact strLe_trans hbx hxz
        · exact htie z (List.mem_cons_of_mem _ hz'') hval

/-! ### The selected best SKU -/

lemma qtyOf_mem : ∀ {m : List (String × Dec)}, (keysOf m).Nodup →
    ∀ {p : String × Dec}, p ∈ m → qtyOf m p.1 = (p.2).val := by
  intro m
  induction m with
  | nil => intro _ p hp; cases hp
  | cons q rest ih =>
    intro hnd p hp
    obtain ⟨s₀, v₀⟩ := q
    have h2 := List.nodup_cons.mp
      (show (s₀ :: keysOf rest).Nodup by simpa only [keysOf, List.map_cons] using hnd)
    rcases List.mem_cons.mp hp with rfl | h1
    · simp [qtyOf]
    · have hne2 : p.1 ≠ s₀ := by
        intro h
        exact h2.1 (h ▸ List.mem_map_of_mem Prod.fst h1)
      simp only [qtyOf, if_neg hne2]
      exact ih h2.2 h1

lemma exists_pair_of_key {m : List (String × Dec)} {t : String} (h : t ∈ keysOf m) :
    ∃ v, (t, v) ∈ m := by
  obtain ⟨p, hp, hp2⟩ := List.mem_map.mp h
  exact ⟨p.2, by rwa [show (t, p.2) = p from Prod.ext hp2.symm rfl]⟩

/-- The `total_quantity` representation chosen by the code for a finite
summed quantity `q`: `int(q)` when `q` is a whole number, else
`float(q)`. -/
def qtyOutOfQ (q : ℚ) : QtyOut := if q.den = 1 then .int q.num else .frac q

lemma find_best_master (records : List OrderRecord) (hne : records ≠ [])
    (hfin : ∀ r ∈ records, (r.quantity).isFin = true) (hex : ExactGroup records) :
    ∃ s, find_best_selling_sku records = some ⟨some s, qtyOutOfQ (skuQty records s)⟩
      ∧ s ∈ records.map OrderRecord.sku
      ∧ (∀ t ∈ records.map OrderRecord.sku, skuQty records t ≤ skuQty records s)
      ∧ (∀ t ∈ records.map OrderRecord.sku,
          skuQty records t = skuQty records s → strLe s.toList t.toList = true) := by
  obtain ⟨m, hm, hfinv, hnodup, hmem, hq⟩ := groupQty_spec records hfin hex
  have hmne : m ≠ [] := by
    intro h0
    obtain ⟨r0, hr0⟩ := List.exists_mem_of_ne_nil records hne
    have hk : r0.sku ∈ keysOf m := (hmem r0.sku).mpr (List.mem_map_of_mem _ hr0)
    rw [h0] at hk
    cases hk
  have hsort_perm := sortBySku_perm m
  have hsorted := sortBySku_sorted m
  cases hs : sortBySku m with
  | nil =>
    rw [hs] at hsort_perm
    exact absurd hsort_perm.symm.eq_nil hmne
  | cons y ys =>
    have hisEmpty : m.isEmpty = false := by
      revert hmne
      cases m
      · intro hmne
        exact absurd rfl hmne
      · intro _
        rfl
    have hfin_sorted : ∀ p ∈ y :: ys, (p.2).isFin = true := by
      intro p hp
      exact hfinv p (hsort_perm.mem_iff.mp (hs ▸ hp))
    have hsorted' : (y :: ys).Pairwise skuLE := hs ▸ hsorted
    obtain ⟨b, hb, hbmem, hbmax, hbtie⟩ := pyMaxBy_spec ys y hfin_sorted hsorted'
    have hbm : b ∈ m := hsort_perm.mem_iff.mp (hs ▸ hbmem)
    obtain ⟨qb, hqb⟩ := Dec.isFin_iff.mp (hfinv b hbm)
    have hqb2 : (b.2).val = skuQty records b.1 := by
      rw [← hq b.1, qtyOf_mem hnodup hbm]
    have hfb : find_best_selling_sku records
        = some ⟨some b.1, qtyOutOfQ (skuQty records b.1)⟩ := by
      unfold find_best_selling_sku
      rw [hm]
      simp only [Option.bind_eq_bind, Option.some_bind, hisEmpty, Bool.false_eq_true,
        if_false, hs, pyMaxList, hb, hqb, decToQtyOut, Option.some_bind]
      rw [← hqb2, hqb]
      rfl
    refine ⟨b.1, hfb, (hmem b.1).mp (List.mem_map_of_mem Prod.fst hbm), ?_, ?_⟩
    · intro t ht
      obtain ⟨v, hv⟩ := exists_pair_of_key ((hmem t).mpr ht)
      have hvval : (v.val : ℚ) = skuQty records t := by
        have := qtyOf_mem hnodup hv
        rw [← hq t]
        exact this.symm
      have hsorted_mem : (t, v) ∈ y :: ys := by
        rw [← hs]
        exact hsort_perm.mem_iff.mpr hv
      have := hbmax (t, v) hsorted_mem
      rw [show ((t, v).2).val = (v.val : ℚ) from rfl, hvval, hqb2] at this
      exact this
    · intro t ht heq
      obtain ⟨v, hv⟩ := exists_pair_of_key ((hmem t).mpr ht)
      have hvval : (v.val : ℚ) = skuQty records t := by
        have := qtyOf_mem hnodup hv
        rw [← hq t]
        exact this.symm
      have hsorted_mem : (t, v) ∈ y :: ys := by
        rw [← hs]
        exact hsort_perm.mem_iff.mpr hv
      have htie := hbtie (t, v) hsorted_mem (by
        rw [show ((t, v).2).val = (v.val : ℚ) from rfl, hvval, hqb2]
        exact heq)
      exact htie

/-- C2 (amended): on every non-empty record list with finite quantities
whose per-SKU running sums are left unchanged by the default context's
28-significant-digit rounding (`ExactGroup`), `find_best_selling_sku`
returns some SKU of the records whose summed quantity is at least every
other SKU's summed quantity, and on equal sums it is at most every tying
SKU in the code-point (alphabetical) string order.  Without the rounding
proviso the claim is false of the code: see the counterexample, where a
context-rounded running sum ties a strictly larger exact sum. -/
theorem find_best_selling_sku_spec (records : List OrderRecord) (hne : records ≠ [])
    (hfin : ∀ r ∈ records, (r.quantity).isFin = true) (hex : ExactGroup records) :
    ∃ s qo, find_best_selling_sku records = some ⟨some s, qo⟩
      ∧ s ∈ records.map OrderRecord.sku
      ∧ (∀ t ∈ records.map OrderRecord.sku, skuQty records t ≤ skuQty records s)
      ∧ (∀ t ∈ records.map OrderRecord.sku,
          skuQty records t = skuQty records s → strLe s.toList t.toList = true) := by
  obtain ⟨s, hfb, hsmem, hmax, htie⟩ := find_best_master records hne hfin hex
  exact ⟨s, _, hfb, hsmem, hmax, htie⟩

/-- C2 witness: the spec's tie example `[(B,3,1),(A,3,2)]`. -/
theorem find_best_selling_sku_spec_witness :
    ∃ s qo,
      find_best_selling_sku [⟨"B", .fin 3, .fin 1⟩, ⟨"A", .fin 3, .fin 2⟩]
        = some ⟨some s, qo⟩
      ∧ s ∈ List.map OrderRecord.sku [⟨"B", .fin 3, .fin 1⟩, ⟨"A", .fin 3, .fin 2⟩]
      ∧ (∀ t ∈ List.map OrderRecord.sku [⟨"B", .fin 3, .fin 1⟩, ⟨"A", .fin 3, .fin 2⟩],
          skuQty [⟨"B", .fin 3, .fin 1⟩, ⟨"A", .fin 3, .fin 2⟩] t
            ≤ skuQty [⟨"B", .fin 3, .fin 1⟩, ⟨"A", .fin 3, .fin 2⟩] s)
      ∧ (∀ t ∈ List.map OrderRecord.sku [⟨"B", .fin 3, .fin 1⟩, ⟨"A", .fin 3, .fin 2⟩],
          skuQty [⟨"B", .fin 3, .fin 1⟩, ⟨"A", .fin 3, .fin 2⟩] t
              = skuQty [⟨"B", .fin 3, .fin 1⟩, ⟨"A", .fin 3, .fin 2⟩] s →
            strLe s.toList t.toList = true) :=
  find_best_selling_sku_spec [⟨"B", .fin 3, .fin 1⟩, ⟨"A", .fin 3, .fin 2⟩]
    (by decide) (by decide) (by decide)

/-- C2 counterexample (claim as stated): with records
`[(X,1e25),(X,0.009),(Y,1e25+0.01)]`, SKU `X`'s running sum
`1e25 + 0.009` is rounded by the context to `1e25 + 0.01`, tying `Y`;
the program returns `X`, although `X`'s exact summed quantity is
strictly below `Y`'s, so the returned SKU is not one of maximum summed
quantity. -/
theorem best_sku_not_exact_max :
    find_best_selling_sku
        [⟨"X", .fin (10 ^ 25), .fin 1⟩, ⟨"X", .fin (9 / 1000), .fin 1⟩,
          ⟨"Y", .fin (10 ^ 25 + 1 / 100), .fin 1⟩]
      = some ⟨some "X", .frac (10 ^ 25 + 1 / 100)⟩
    ∧ skuQty
        [⟨"X", .fin (10 ^ 25), .fin 1⟩, ⟨"X", .fin (9 / 1000), .fin 1⟩,
          ⟨"Y", .fin (10 ^ 25 + 1 / 100), .fin 1⟩] "X"
      < skuQty
        [⟨"X", .fin (10 ^ 25), .fin 1⟩, ⟨"X", .fin (9 / 1000), .fin 1⟩,
          ⟨"Y", .fin (10 ^ 25 + 1 / 100), .fin 1⟩] "Y" := by
  decide

/-- C7 (amended): when the per-SKU running sums are left unchanged by
the default context's 28-significant-digit rounding (`ExactGroup`), the
best SKU's summed quantity is emitted as the integer `n` exactly when
the sum is mathematically the whole number `n`, and as the (exact value
of the) fractional number otherwise; `build_output` passes the chosen
representation through unchanged.  Without the rounding proviso the
claim is false of the code: see the counterexample, where a
mathematically fractional sum is emitted as an integer. -/
theorem best_quantity_int_iff_whole (records : List OrderRecord) (hne : records ≠ [])
    (hfin : ∀ r ∈ records, (r.quantity).isFin = true) (hex : ExactGroup records) :
    ∃ s, find_best_selling_sku records = some ⟨some s, qtyOutOfQ (skuQty records s)⟩
      ∧ (∀ n : ℤ, skuQty records s = (n : ℚ) → qtyOutOfQ (skuQty records s) = .int n)
      ∧ ((¬ ∃ n : ℤ, skuQty records s = (n : ℚ)) →
          qtyOutOfQ (skuQty records s) = .frac (skuQty records s))
      ∧ (∀ tr b, (build_output tr b).best_selling_sku.total_quantity = b.total_quantity) := by
  obtain ⟨s, hfb, -, -, -⟩ := find_best_master records hne hfin hex
  refine ⟨s, hfb, ?_, ?_, fun tr b => rfl⟩
  · intro n hn
    rw [hn]
    simp [qtyOutOfQ]
  · intro hno
    have hden : (skuQty records s).den ≠ 1 := by
      intro h1
      exact hno ⟨(skuQty records s).num, ((Rat.den_eq_one_iff _).mp h1).symm⟩
    simp [qtyOutOfQ, hden]

/-- C7 witness: a single record with the fractional quantity `5/2`. -/
theorem best_quantity_int_iff_whole_witness :
    ∃ s, find_best_selling_sku [⟨"A", .fin (5 / 2), .fin 1⟩]
        = some ⟨some s, qtyOutOfQ (skuQty [⟨"A", .fin (5 / 2), .fin 1⟩] s)⟩
      ∧ (∀ n : ℤ, skuQty [⟨"A", .fin (5 / 2), .fin 1⟩] s = (n : ℚ) →
          qtyOutOfQ (skuQty [⟨"A", .fin (5 / 2), .fin 1⟩] s) = .int n)
      ∧ ((¬ ∃ n : ℤ, skuQty [⟨"A", .fin (5 / 2), .fin 1⟩] s = (n : ℚ)) →
          qtyOutOfQ (skuQty [⟨"A", .fin (5 / 2), .fin 1⟩] s)
            = .frac (skuQty [⟨"A", .fin (5 / 2), .fin 1⟩] s))
      ∧ (∀ tr b, (build_output tr b).best_selling_sku.total_quantity = b.total_quantity) :=
  best_quantity_int_iff_whole [⟨"A", .fin (5 / 2), .fin 1⟩] (by decide) (by decide) (by decide)

/-- C7 counterexample (claim as stated): with the two `X` records
`(1e25, 0.0004)`, the context rounds the running sum `1e25 + 0.0004`
back to `1e25`, so the program emits the integer `1e25`, although the
summed quantity is mathematically not a whole number. -/
theorem int_tag_on_context_rounded_sum :
    find_best_selling_sku
        [⟨"X", .fin (10 ^ 25), .fin 1⟩, ⟨"X", .fin (4 / 10000), .fin 1⟩]
      = some ⟨some "X", .int (10 ^ 25)⟩
    ∧ skuQty [⟨"X", .fin (10 ^ 25), .fin 1⟩, ⟨"X", .fin (4 / 10000), .fin 1⟩] "X"
      ≠ ((10 ^ 25 : ℤ) : ℚ)
    ∧ (skuQty [⟨"X", .fin (10 ^ 25), .fin 1⟩, ⟨"X", .fin (4 / 10000), .fin 1⟩] "X").den
      ≠ 1 := by
  decide

/-- C10 (amended): on every record list returned by a successful
`load_orders` whose quantities and prices are all finite decimals, whose
revenue and per-SKU sums are left unchanged by the default context's
28-significant-digit rounding, and whose quantized total fits the
context's 28-digit capacity (`|total| < 10 ^ 26`), both aggregation
functions complete without raising.  Without these provisos the claim
is false of the code: see the counterexample — the loadable quantities
`Infinity` and `1e26` both make `calculate_total_revenue` raise. -/
theorem aggregation_total_on_finite (rows : List (List String)) (recs : List OrderRecord)
    (hload : load_orders rows = .ok recs) (hfin : AllFin recs)
    (hexR : ExactRevenue recs) (hexG : ExactGroup recs)
    (hcap : |roundHalfUp2 ((recs.map qpVal).sum)| < pow10 26) :
    (∃ d, calculate_total_revenue recs = some d)
    ∧ (∃ b, find_best_selling_sku recs = some b) := by
  refine ⟨⟨.fin (roundHalfUp2 ((recs.map qpVal).sum)), ?_⟩, ?_⟩
  · have hpre : ∀ n, Fits28 (0 + ((recs.map qpVal).take n).sum) := by
      intro n
      simpa using exactRevenue_prefix hexR n
    unfold calculate_total_revenue
    rw [revenue_foldlM recs hfin hexR.1 0 hpre]
    simp only [Option.bind_eq_bind, Option.some_bind, zero_add, decQuantize2,
      (adjCond_false_iff _ _).mpr hcap, Bool.false_eq_true, if_false]
  · by_cases hne : recs = []
    · subst hne
      exact ⟨⟨none, .int 0⟩, by decide⟩
    · obtain ⟨s, hfb, -, -, -⟩ := find_best_master recs hne (fun r hr => (hfin r hr).1) hexG
      exact ⟨_, hfb⟩

/-- C10 witness: `aggregation_total_on_finite` at a concrete one-row
load. -/
theorem aggregation_total_on_finite_witness :
    (∃ d, calculate_total_revenue [⟨"A", .fin 2, .fin (2001 / 200)⟩] = some d)
    ∧ (∃ b, find_best_selling_sku [⟨"A", .fin 2, .fin (2001 / 200)⟩] = some b) :=
  aggregation_total_on_finite [["sku", "quantity", "price"], ["A", "2", "10.005"]]
    [⟨"A", .fin 2, .fin (2001 / 200)⟩] (by decide) (by decide) (by decide) (by decide)
    (by decide)

/-! ### Permutation invariance (C9) -/

lemma Dec.fin_val {d : Dec} (h : d.isFin = true) : d = .fin d.val := by
  cases d <;> simp_all [Dec.isFin, Dec.val]

lemma skuQty_perm {l₁ l₂ : List OrderRecord} (h : List.Perm l₁ l₂) (t : String) :
    skuQty l₁ t = skuQty l₂ t := by
  unfold skuQty
  exact List.Perm.sum_eq ((h.filter _).map _)

lemma group_mem_of_perm {l₁ l₂ : List OrderRecord} (hperm : List.Perm l₁ l₂)
    {m₁ m₂ : List (String × Dec)}
    (hfin₁ : FinVals m₁) (hfin₂ : FinVals m₂)
    (hnd₁ : (keysOf m₁).Nodup) (hnd₂ : (keysOf m₂).Nodup)
    (hmem₁ : ∀ t, t ∈ keysOf m₁ ↔ t ∈ l₁.map OrderRecord.sku)
    (hmem₂ : ∀ t, t ∈ keysOf m₂ ↔ t ∈ l₂.map OrderRecord.sku)
    (hq₁ : ∀ t, qtyOf m₁ t = skuQty l₁ t) (hq₂ : ∀ t, qtyOf m₂ t = skuQty l₂ t) :
    ∀ p, p ∈ m₁ → p ∈ m₂ := by
  intro p hp
  have hkey : p.1 ∈ keysOf m₂ := by
    rw [hmem₂, ← (hperm.map OrderRecord.sku).mem_iff]
    exact (hmem₁ p.1).mp (List.mem_map_of_mem Prod.fst hp)
  obtain ⟨v, hv⟩ := exists_pair_of_key hkey
  have h2 : v.val = (p.2).val := by
    have ha : qtyOf m₂ p.1 = v.val := by simpa using qtyOf_mem hnd₂ hv
    have hb : qtyOf m₁ p.1 = (p.2).val := qtyOf_mem hnd₁ hp
    rw [← ha, hq₂, ← skuQty_perm hperm, ← hq₁, hb]
  have hveq : v = p.2 := by
    calc v = .fin v.val := Dec.fin_val (hfin₂ (p.1, v) hv)
      _ = .fin ((p.2).val) := by rw [h2]
      _ = p.2 := (Dec.fin_val (hfin₁ p hp)).symm
  rw [hveq] at hv
  simpa using hv

lemma pairwise_strict_of_sorted {l : List (String × Dec)}
    (hs : l.Pairwise skuLE) (hnd : (keysOf l).Nodup) :
    l.Pairwise (fun a b => strLt a.1.toList b.1.toList = true) := by
  have hndp : l.Pairwise (fun a b => a.1 ≠ b.1) := by
    rw [keysOf] at hnd
    exact (List.pairwise_map.mp hnd)
  refine (hs.and hndp).imp ?_
  intro a b hab
  obtain ⟨hle, hne⟩ := hab
  cases hlt : strLt a.1.toList b.1.toList with
  | true => rfl
  | false =>
    exfalso
    have hba : strLt b.1.toList a.1.toList = false := by
      have : strLe a.1.toList b.1.toList = true := hle
      simpa [strLe, Bool.not_eq_true'] using this
    have : a.1.toList = b.1.toList := strLt_eq_of_not hlt hba
    exact hne (String.ext this)

lemma assoc_perm {m₁ m₂ : List (String × Dec)}
    (hnd₁ : (keysOf m₁).Nodup) (hnd₂ : (keysOf m₂).Nodup)
    (hmem : ∀ p, p ∈ m₁ ↔ p ∈ m₂) : List.Perm m₁ m₂ := by
  have hn₁ : m₁.Nodup := List.Nodup.of_map Prod.fst hnd₁
  have hn₂ : m₂.Nodup := List.Nodup.of_map Prod.fst hnd₂
  apply List.perm_of_nodup_nodup_toFinset_eq hn₁ hn₂
  ext p
  simp only [List.mem_toFinset]
  exact hmem p

instance : IsAntisymm (String × Dec) (fun a b => strLt a.1.toList b.1.toList = true) :=
  ⟨fun a b h1 h2 => absurd (strLt_asymm h1) (by rw [h2]; exact fun h => by cases h)⟩

lemma sorted_assoc_eq {m₁ m₂ : List (String × Dec)}
    (hnd₁ : (keysOf m₁).Nodup) (hnd₂ : (keysOf m₂).Nodup)
    (hmem : ∀ p, p ∈ m₁ ↔ p ∈ m₂) :
    sortBySku m₁ = sortBySku m₂ := by
  have hpermm : List.Perm m₁ m₂ := assoc_perm hnd₁ hnd₂ hmem
  have hps : List.Perm (sortBySku m₁) (sortBySku m₂) :=
    ((sortBySku_perm m₁).trans hpermm).trans (sortBySku_perm m₂).symm
  have hndk₁ : (keysOf (sortBySku m₁)).Nodup := by
    have : List.Perm (keysOf (sortBySku m₁)) (keysOf m₁) := (sortBySku_perm m₁).map Prod.fst
    exact this.nodup_iff.mpr hnd₁
  have hndk₂ : (keysOf (sortBySku m₂)).Nodup := by
    have : List.Perm (keysOf (sortBySku m₂)) (keysOf m₂) := (sortBySku_perm m₂).map Prod.fst
    exact this.nodup_iff.mpr hnd₂
  exact List.eq_of_perm_of_sorted hps
    (pairwise_strict_of_sorted (sortBySku_sorted m₁) hndk₁)
    (pairwise_strict_of_sorted (sortBySku_sorted m₂) hndk₂)

/-- C9 (amended): on record lists with finite values whose intermediate
sums are left unchanged by the default context's 28-significant-digit
rounding (`ExactRevenue` and `ExactGroup`, on both orderings), both
aggregation functions are invariant under reordering of the records:
the output depends only on the multiset of records.  Without the
rounding proviso the claim is false of the code: see the
counterexample, where permuting three records changes the revenue. -/
theorem aggregation_perm_invariant (l₁ l₂ : List OrderRecord)
    (hperm : List.Perm l₁ l₂) (hfin : AllFin l₁)
    (hex₁ : ExactRevenue l₁) (hex₂ : ExactRevenue l₂)
    (hg₁ : ExactGroup l₁) (hg₂ : ExactGroup l₂) :
    calculate_total_revenue l₁ = calculate_total_revenue l₂
    ∧ find_best_selling_sku l₁ = find_best_selling_sku l₂ := by
  have hfin₂ : AllFin l₂ := fun r hr => hfin r (hperm.mem_iff.mpr hr)
  constructor
  · have hpre₁ : ∀ n, Fits28 ((0 : ℚ) + ((l₁.map qpVal).take n).sum) := by
      intro n
      simpa using exactRevenue_prefix hex₁ n
    have hpre₂ : ∀ n, Fits28 ((0 : ℚ) + ((l₂.map qpVal).take n).sum) := by
      intro n
      simpa using exactRevenue_prefix hex₂ n
    unfold calculate_total_revenue
    rw [revenue_foldlM l₁ hfin hex₁.1 0 hpre₁, revenue_foldlM l₂ hfin₂ hex₂.1 0 hpre₂,
      List.Perm.sum_eq (hperm.map qpVal)]
  · obtain ⟨m₁, hm₁, hfinv₁, hnd₁, hmem₁, hq₁⟩ :=
      groupQty_spec l₁ (fun r hr => (hfin r hr).1) hg₁
    obtain ⟨m₂, hm₂, hfinv₂, hnd₂, hmem₂, hq₂⟩ :=
      groupQty_spec l₂ (fun r hr => (hfin₂ r hr).1) hg₂
    have hmemp : ∀ p, p ∈ m₁ ↔ p ∈ m₂ := fun p =>
      ⟨group_mem_of_perm hperm hfinv₁ hfinv₂ hnd₁ hnd₂ hmem₁ hmem₂ hq₁ hq₂ p,
        group_mem_of_perm hperm.symm hfinv₂ hfinv₁ hnd₂ hnd₁ hmem₂ hmem₁ hq₂ hq₁ p⟩
    have hpermm : List.Perm m₁ m₂ := assoc_perm hnd₁ hnd₂ hmemp
    have hsorted_eq : sortBySku m₁ = sortBySku m₂ := sorted_assoc_eq hnd₁ hnd₂ hmemp
    have hempty : m₁.isEmpty = m₂.isEmpty := by
      revert hpermm
      cases m₁ with
      | nil =>
        intro hpermm
        rw [hpermm.symm.eq_nil]
      | cons p t =>
        cases m₂ with
        | nil =>
          intro hpermm
          cases hpermm.eq_nil
        | cons q t2 =>
          intro _
          rfl
    unfold find_best_selling_sku
    rw [hm₁, hm₂]
    simp only [Option.bind_eq_bind, Option.some_bind]
    rw [hempty, hsorted_eq]

/-- C9 witness: swapping the two records of the tie example changes
neither the revenue nor the best SKU. -/
theorem aggregation_perm_invariant_witness :
    calculate_total_revenue [⟨"B", .fin 3, .fin 1⟩, ⟨"A", .fin 3, .fin 2⟩]
      = calculate_total_revenue [⟨"A", .fin 3, .fin 2⟩, ⟨"B", .fin 3, .fin 1⟩]
    ∧ find_best_selling_sku [⟨"B", .fin 3, .fin 1⟩, ⟨"A", .fin 3, .fin 2⟩]
      = find_best_selling_sku [⟨"A", .fin 3, .fin 2⟩, ⟨"B", .fin 3, .fin 1⟩] :=
  aggregation_perm_invariant [⟨"B", .fin 3, .fin 1⟩, ⟨"A", .fin 3, .fin 2⟩]
    [⟨"A", .fin 3, .fin 2⟩, ⟨"B", .fin 3, .fin 1⟩]
    (List.Perm.swap (⟨"A", .fin 3, .fin 2⟩ : OrderRecord) ⟨"B", .fin 3, .fin 1⟩ [])
    (by decide) (by decide) (by decide) (by decide) (by decide)

/-- C9 counterexample (claim as stated): the records
`[(A,0.005),(B,1e25),(C,0.005)]` and their reordering
`[(A,0.005),(C,0.005),(B,1e25)]` give different revenues: in the first
order each `0.005` is absorbed by the context rounding of the running
total at `1e25`, in the second the two `0.005` add to `0.01` first and
survive, so the output depends on the input row order. -/
theorem aggregation_not_perm_invariant :
    List.Perm
        ([⟨"A", .fin (5 / 1000), .fin 1⟩, ⟨"B", .fin (10 ^ 25), .fin 1⟩,
          ⟨"C", .fin (5 / 1000), .fin 1⟩] : List OrderRecord)
        [⟨"A", .fin (5 / 1000), .fin 1⟩, ⟨"C", .fin (5 / 1000), .fin 1⟩,
          ⟨"B", .fin (10 ^ 25), .fin 1⟩]
    ∧ calculate_total_revenue
        [⟨"A", .fin (5 / 1000), .fin 1⟩, ⟨"B", .fin (10 ^ 25), .fin 1⟩,
          ⟨"C", .fin (5 / 1000), .fin 1⟩]
      = some (.fin (10 ^ 25))
    ∧ calculate_total_revenue
        [⟨"A", .fin (5 / 1000), .fin 1⟩, ⟨"C", .fin (5 / 1000), .fin 1⟩,
          ⟨"B", .fin (10 ^ 25), .fin 1⟩]
      = some (.fin (10 ^ 25 + 1 / 100))
    ∧ (some (Dec.fin (10 ^ 25)) : Option Dec) ≠ some (.fin (10 ^ 25 + 1 / 100)) :=
  ⟨List.Perm.cons (⟨"A", .fin (5 / 1000), .fin 1⟩ : OrderRecord)
      (List.Perm.swap (⟨"C", .fin (5 / 1000), .fin 1⟩ : OrderRecord)
        ⟨"B", .fin (10 ^ 25), .fin 1⟩ []),
    by decide, by decide, by decide⟩

end OrdersSummary
